import Mathlib

/-!
Verification of the CTMC simulation core of the traffic-light-system-simulation
repository: the M/M/c queue demo (src/Queue/queue.py) and the machine-repair
birth-death demo (src/Repair System/sr_app.py).

The Python code mutates Streamlit session state; here each `simulation_step`
is embedded as a pure function from the session state (plus the two random
draws it consumes: the exponential holding time `dt` and the uniform
selector `u`) to the new session state.  Real-valued quantities are embedded
as rationals, so every statement is exact.
-/

namespace MMcQueue

/-- Fixed slider parameters of the queue demo (`lambda_rate`, `mu_rate`,
`c`, `T_MAX` in queue.py). -/
structure Params where
  lambda_rate : ℚ
  mu_rate : ℚ
  c : ℤ
  T_MAX : ℚ
deriving DecidableEq

/-- The mutable session state of the queue demo: `time`, `queue`, `busy`,
`arrivals`, `served`, `queue_time`, `busy_time`, `queue_history`,
`time_history`. -/
structure State where
  time : ℚ
  queue : ℤ
  busy : ℤ
  arrivals : ℤ
  served : ℤ
  queue_time : ℚ
  busy_time : ℚ
  queue_history : List ℤ
  time_history : List ℚ
deriving DecidableEq

/-- Initial session state: everything zero, histories empty. -/
def initState : State := ⟨0, 0, 0, 0, 0, 0, 0, [], []⟩

/-- `arrival_rate = lambda_rate`. -/
def arrival_rate (p : Params) : ℚ := p.lambda_rate

/-- `service_rate = min(b, c) * mu_rate`. -/
def service_rate (p : Params) (s : State) : ℚ := ((min s.busy p.c : ℤ) : ℚ) * p.mu_rate

/-- `total_rate = arrival_rate + service_rate`. -/
def total_rate (p : Params) (s : State) : ℚ := arrival_rate p + service_rate p s

/-- One CTMC event of queue.py (`simulation_step`), as a function of the two
random draws: `dt` (the `random.expovariate(total_rate)` holding time) and
`u` (the `random.random()` event selector). -/
def simulation_step (p : Params) (s : State) (dt u : ℚ) : State :=
  let t := s.time
  let q := s.queue
  let b := s.busy
  if total_rate p s = 0 then s
  else
    let next_time := min (t + dt) p.T_MAX
    let s1 : State :=
      { s with
        queue_time := s.queue_time + (q : ℚ) * (next_time - t)
        busy_time := s.busy_time + (b : ℚ) * (next_time - t)
        time := next_time
        queue_history := s.queue_history ++ [q]
        time_history := s.time_history ++ [next_time] }
    if u < arrival_rate p / total_rate p s then
      let s2 := { s1 with arrivals := s1.arrivals + 1 }
      if b < p.c then { s2 with busy := s2.busy + 1 }
      else { s2 with queue := s2.queue + 1 }
    else
      let s2 := { s1 with served := s1.served + 1 }
      if 0 < q then { s2 with queue := s2.queue - 1 }
      else { s2 with busy := max 0 (b - 1) }

/-- Folding `simulation_step` over a list of random draws. -/
def run (p : Params) (s : State) : List (ℚ × ℚ) → State
  | [] => s
  | d :: ds => run p (simulation_step p s d.1 d.2) ds

/-- The structural state invariant of the queue: the queue is never negative,
the busy-server count stays between 0 and `c`, and the queue can only be
nonempty when all servers are busy. -/
def Invariant (p : Params) (s : State) : Prop :=
  0 ≤ s.queue ∧ 0 ≤ s.busy ∧ s.busy ≤ p.c ∧ (0 < s.queue → s.busy = p.c)

theorem invariant_initState (p : Params) (hc : 1 ≤ p.c) : Invariant p initState := by
  unfold Invariant initState
  dsimp only
  omega

theorem invariant_step (p : Params) (hc : 1 ≤ p.c) {s : State} (h : Invariant p s)
    (dt u : ℚ) : Invariant p (simulation_step p s dt u) := by
  simp only [simulation_step]
  split_ifs with h5 h6 h7 h8 <;>
    (unfold Invariant at *; try dsimp only at *) <;> omega

theorem invariant_run (p : Params) (hc : 1 ≤ p.c) {s : State} (h : Invariant p s)
    (ds : List (ℚ × ℚ)) : Invariant p (run p s ds) := by
  induction ds generalizing s with
  | nil => exact h
  | cons d ds ih => exact ih (invariant_step p hc h d.1 d.2)

end MMcQueue

namespace RepairSystem

/-- Fixed parameters of the repair demo (`N`, `lambda_rate`, `mu_rate`,
`teams`, `T_MAX` in sr_app.py; `N = 3` in the source). -/
structure Params where
  N : ℕ
  lambda_rate : ℚ
  mu_rate : ℚ
  teams : ℤ
  T_MAX : ℚ

/-- The mutable session state of the repair demo: `time`, `state` (number of
failed machines), `history`, `time_in_state` (the np.zeros(N+1) array,
embedded as a function on ℤ), and the `running` flag. -/
structure State where
  time : ℚ
  state : ℤ
  history : List (ℚ × ℤ)
  time_in_state : ℤ → ℚ
  running : Bool

/-- Initial session state: time 0, no failed machines, empty history and
occupancy array. -/
def initState : State := ⟨0, 0, [], fun _ => 0, false⟩

/-- `birth_rate = (N - state) * lambda_rate if state < N else 0`. -/
def birth_rate (p : Params) (state : ℤ) : ℚ :=
  if state < (p.N : ℤ) then (((p.N : ℤ) - state : ℤ) : ℚ) * p.lambda_rate else 0

/-- `death_rate = min(state, teams) * mu_rate if state > 0 else 0`. -/
def death_rate (p : Params) (state : ℤ) : ℚ :=
  if 0 < state then ((min state p.teams : ℤ) : ℚ) * p.mu_rate else 0

/-- `total_rate = birth_rate + death_rate`. -/
def total_rate (p : Params) (state : ℤ) : ℚ := birth_rate p state + death_rate p state

/-- One CTMC event of sr_app.py (`simulation_step`), as a function of the
draws `dt` (`random.expovariate`) and `u` (`random.random`). -/
def simulation_step (p : Params) (s : State) (dt u : ℚ) : State :=
  if total_rate p s.state = 0 then s
  else
    let next_time := min (s.time + dt) p.T_MAX
    let s1 : State :=
      { s with
        time_in_state := Function.update s.time_in_state s.state
          (s.time_in_state s.state + (next_time - s.time))
        time := next_time }
    if p.T_MAX ≤ s1.time then { s1 with running := false }
    else
      let newState := if u < birth_rate p s.state / total_rate p s.state
        then s.state + 1 else s.state - 1
      { s1 with state := newState, history := s1.history ++ [(s1.time, newState)] }

/-- Folding `simulation_step` over a list of random draws. -/
def run (p : Params) (s : State) : List (ℚ × ℚ) → State
  | [] => s
  | d :: ds => run p (simulation_step p s d.1 d.2) ds

end RepairSystem

/-- C4: whenever the total competing rate is exactly zero, a step call is a
no-op in both variants: the state record (time, system state, accumulators,
history) is returned unchanged, which is the Terminal outcome. -/
theorem C4_zero_total_rate_is_noop :
    (∀ (p : MMcQueue.Params) (s : MMcQueue.State) (dt u : ℚ),
      MMcQueue.total_rate p s = 0 → MMcQueue.simulation_step p s dt u = s) ∧
    (∀ (p : RepairSystem.Params) (s : RepairSystem.State) (dt u : ℚ),
      RepairSystem.total_rate p s.state = 0 → RepairSystem.simulation_step p s dt u = s) := by
  constructor
  · intro p s dt u h
    simp [MMcQueue.simulation_step, h]
  · intro p s dt u h
    simp [RepairSystem.simulation_step, h]

/-- Queue parameters with zero rates: an absorbing configuration. -/
def qpZero : MMcQueue.Params := ⟨0, 0, 1, 100⟩

/-- Repair parameters with zero failure rate. -/
def rpZero : RepairSystem.Params := ⟨3, 0, 1/2, 1, 100⟩

theorem C4_witness :
    MMcQueue.total_rate qpZero MMcQueue.initState = 0 ∧
    MMcQueue.simulation_step qpZero MMcQueue.initState 1 0 = MMcQueue.initState ∧
    RepairSystem.total_rate rpZero RepairSystem.initState.state = 0 ∧
    RepairSystem.simulation_step rpZero RepairSystem.initState 1 0 = RepairSystem.initState := by
  refine ⟨?_, ?_, ?_, ?_⟩
  · norm_num [MMcQueue.total_rate, MMcQueue.arrival_rate, MMcQueue.service_rate, qpZero,
      MMcQueue.initState]
  · exact C4_zero_total_rate_is_noop.1 qpZero MMcQueue.initState 1 0 (by
      norm_num [MMcQueue.total_rate, MMcQueue.arrival_rate, MMcQueue.service_rate, qpZero,
        MMcQueue.initState])
  · norm_num [RepairSystem.total_rate, RepairSystem.birth_rate, RepairSystem.death_rate, rpZero,
      RepairSystem.initState]
  · exact C4_zero_total_rate_is_noop.2 rpZero RepairSystem.initState 1 0 (by
      norm_num [RepairSystem.total_rate, RepairSystem.birth_rate, RepairSystem.death_rate, rpZero,
        RepairSystem.initState])

/-- C5: in every step with positive total rate, each time-weighted
accumulator grows by exactly `(next_time - current_time)` times the value of
interest of the state being left (pre-transition queue length, busy-server
count, or failed-unit count), with `next_time = min(current_time + dt, T_MAX)`;
no accumulator entry for any other state key changes. -/
theorem C5_time_weighted_accumulators :
    (∀ (p : MMcQueue.Params) (s : MMcQueue.State) (dt u : ℚ),
      0 < MMcQueue.total_rate p s →
      (MMcQueue.simulation_step p s dt u).queue_time
          = s.queue_time + (s.queue : ℚ) * (min (s.time + dt) p.T_MAX - s.time) ∧
      (MMcQueue.simulation_step p s dt u).busy_time
          = s.busy_time + (s.busy : ℚ) * (min (s.time + dt) p.T_MAX - s.time)) ∧
    (∀ (p : RepairSystem.Params) (s : RepairSystem.State) (dt u : ℚ),
      0 < RepairSystem.total_rate p s.state →
      (RepairSystem.simulation_step p s dt u).time_in_state s.state
          = s.time_in_state s.state + (min (s.time + dt) p.T_MAX - s.time) ∧
      ∀ j, j ≠ s.state →
        (RepairSystem.simulation_step p s dt u).time_in_state j = s.time_in_state j) := by
  constructor
  · intro p s dt u h
    have h0 : MMcQueue.total_rate p s ≠ 0 := ne_of_gt h
    simp only [MMcQueue.simulation_step]
    rw [if_neg h0]
    refine ⟨?_, ?_⟩ <;> (split_ifs <;> rfl)
  · intro p s dt u h
    have h0 : RepairSystem.total_rate p s.state ≠ 0 := ne_of_gt h
    simp only [RepairSystem.simulation_step]
    rw [if_neg h0]
    refine ⟨?_, ?_⟩
    · split_ifs <;> simp [Function.update]
    · intro j hj
      split_ifs <;> simp [Function.update, hj]

/-- Generic queue parameters used by several witnesses. -/
def qpOne : MMcQueue.Params := ⟨1, 1, 1, 100⟩

theorem C5_witness :
    0 < MMcQueue.total_rate qpOne MMcQueue.initState ∧
    (MMcQueue.simulation_step qpOne MMcQueue.initState 1 0).queue_time
        = MMcQueue.initState.queue_time
            + (MMcQueue.initState.queue : ℚ)
              * (min (MMcQueue.initState.time + 1) qpOne.T_MAX - MMcQueue.initState.time) := by
  have hpos : 0 < MMcQueue.total_rate qpOne MMcQueue.initState := by
    norm_num [MMcQueue.total_rate, MMcQueue.arrival_rate, MMcQueue.service_rate, qpOne,
      MMcQueue.initState]
  exact ⟨hpos, (C5_time_weighted_accumulators.1 qpOne MMcQueue.initState 1 0 hpos).1⟩

/-- C3: the predicate (queue_length ≥ 0) ∧ (0 ≤ busy_servers ≤ c) ∧
(queue_length > 0 → busy_servers = c) holds in the initial state, is
preserved by every step for every choice of the random draws, and hence
holds in every reachable state of the queue variant, for every c ≥ 1. -/
theorem C3_queue_state_invariant (p : MMcQueue.Params) (hc : 1 ≤ p.c) :
    MMcQueue.Invariant p MMcQueue.initState ∧
    (∀ (s : MMcQueue.State) (dt u : ℚ), MMcQueue.Invariant p s →
      MMcQueue.Invariant p (MMcQueue.simulation_step p s dt u)) ∧
    (∀ draws : List (ℚ × ℚ), MMcQueue.Invariant p (MMcQueue.run p MMcQueue.initState draws)) :=
  ⟨MMcQueue.invariant_initState p hc,
   fun _ dt u h => MMcQueue.invariant_step p hc h dt u,
   fun draws => MMcQueue.invariant_run p hc (MMcQueue.invariant_initState p hc) draws⟩

theorem C3_witness :
    MMcQueue.Invariant qpOne (MMcQueue.run qpOne MMcQueue.initState [(1, 0), (2, 1/2)]) :=
  (C3_queue_state_invariant qpOne (by norm_num [qpOne])).2.2 [(1, 0), (2, 1/2)]

namespace MMcQueue

/-- The conservation quantity of the queue: every customer that has arrived
and not been served is either waiting or in service. -/
def Conservation (s : State) : Prop := s.queue + s.busy = s.arrivals - s.served

/-- If the service-completion branch is selected (the uniform draw `u < 1`
is at least `arrival_rate / total_rate`) and the step did not return early,
then at least one server is busy. -/
theorem busy_pos_of_completion (p : Params) {s : State} {u : ℚ}
    (hl : 0 ≤ p.lambda_rate) (hm : 0 ≤ p.mu_rate) (hc : 1 ≤ p.c) (hb : 0 ≤ s.busy)
    (h0 : total_rate p s ≠ 0) (hu1 : u < 1)
    (hsel : arrival_rate p / total_rate p s ≤ u) :
    1 ≤ s.busy := by
  have hl' : 0 ≤ arrival_rate p := hl
  have hminz : (0 : ℤ) ≤ min s.busy p.c := le_min hb (by omega)
  have hsr : 0 ≤ service_rate p s := by
    unfold service_rate
    exact mul_nonneg (by exact_mod_cast hminz) hm
  have hartot : total_rate p s = arrival_rate p + service_rate p s := rfl
  have htotnn : 0 ≤ total_rate p s := by rw [hartot]; exact add_nonneg hl' hsr
  have htot : 0 < total_rate p s := lt_of_le_of_ne htotnn (Ne.symm h0)
  have hdiv : arrival_rate p / total_rate p s < 1 := lt_of_le_of_lt hsel hu1
  have hlt : arrival_rate p < total_rate p s := (div_lt_one htot).mp hdiv
  have hsrpos : 0 < service_rate p s := by rw [hartot] at hlt; linarith
  have hminpos : (0 : ℚ) < ((min s.busy p.c : ℤ) : ℚ) := by
    by_contra hneg
    push_neg at hneg
    have : service_rate p s ≤ 0 := by
      unfold service_rate
      exact mul_nonpos_iff.mpr (Or.inr ⟨hneg, hm⟩)
    linarith
  have : (0 : ℤ) < min s.busy p.c := by exact_mod_cast hminpos
  omega

theorem conservation_step (p : Params) (hl : 0 ≤ p.lambda_rate) (hm : 0 ≤ p.mu_rate)
    (hc : 1 ≤ p.c) {s : State} (hb : 0 ≤ s.busy) (h : Conservation s)
    (dt : ℚ) {u : ℚ} (hu1 : u < 1) :
    Conservation (simulation_step p s dt u) := by
  simp only [simulation_step]
  split_ifs with h5 h6 h7 h8
  · exact h
  · unfold Conservation at *; dsimp only at *; omega
  · unfold Conservation at *; dsimp only at *; omega
  · unfold Conservation at *; dsimp only at *; omega
  · have h1b : 1 ≤ s.busy :=
      busy_pos_of_completion p hl hm hc hb h5 hu1 (not_lt.mp h6)
    unfold Conservation at *; dsimp only at *; omega

theorem conservation_run (p : Params) (hl : 0 ≤ p.lambda_rate) (hm : 0 ≤ p.mu_rate)
    (hc : 1 ≤ p.c) {s : State} (hI : Invariant p s) (hC : Conservation s)
    (ds : List (ℚ × ℚ)) (hd : ∀ d ∈ ds, d.2 < 1) :
    Invariant p (run p s ds) ∧ Conservation (run p s ds) := by
  induction ds generalizing s with
  | nil => exact ⟨hI, hC⟩
  | cons d ds ih =>
      exact ih (invariant_step p hc hI d.1 d.2)
        (conservation_step p hl hm hc hI.2.1 hC d.1 (hd d (List.mem_cons_self d ds)))
        (fun e he => hd e (List.mem_cons_of_mem d he))

end MMcQueue

/-- C9: the conservation equation queue_length + busy_servers =
arrivals - served holds initially (all counters zero), is preserved by
every step for every admissible uniform draw u < 1, and in every reachable
state; in particular served ≤ arrivals in every reachable state. -/
theorem C9_conservation_queue (p : MMcQueue.Params) (hl : 0 ≤ p.lambda_rate)
    (hm : 0 ≤ p.mu_rate) (hc : 1 ≤ p.c) :
    MMcQueue.Conservation MMcQueue.initState ∧
    (∀ (s : MMcQueue.State) (dt u : ℚ), u < 1 → 0 ≤ s.busy → MMcQueue.Conservation s →
      MMcQueue.Conservation (MMcQueue.simulation_step p s dt u)) ∧
    (∀ draws : List (ℚ × ℚ), (∀ d ∈ draws, d.2 < 1) →
      MMcQueue.Conservation (MMcQueue.run p MMcQueue.initState draws) ∧
      (MMcQueue.run p MMcQueue.initState draws).served
        ≤ (MMcQueue.run p MMcQueue.initState draws).arrivals) := by
  refine ⟨by unfold MMcQueue.Conservation MMcQueue.initState; dsimp only; omega,
    fun s dt u hu1 hb hC => MMcQueue.conservation_step p hl hm hc hb hC dt hu1,
    fun draws hd => ?_⟩
  obtain ⟨hI, hC⟩ := MMcQueue.conservation_run p hl hm hc
    (MMcQueue.invariant_initState p hc)
    (by unfold MMcQueue.Conservation MMcQueue.initState; dsimp only; omega) draws hd
  obtain ⟨hq, hbsy, -, -⟩ := hI
  unfold MMcQueue.Conservation at hC
  exact ⟨hC, by omega⟩

theorem C9_witness :
    MMcQueue.Conservation (MMcQueue.run qpOne MMcQueue.initState [(1, 0)]) ∧
    (MMcQueue.run qpOne MMcQueue.initState [(1, 0)]).served
      ≤ (MMcQueue.run qpOne MMcQueue.initState [(1, 0)]).arrivals :=
  (C9_conservation_queue qpOne (by norm_num [qpOne]) (by norm_num [qpOne])
    (by norm_num [qpOne])).2.2 [(1, 0)]
    (by intro d hd; rw [List.mem_singleton] at hd; subst hd; norm_num)

/-- C10: a ServiceCompletion event is never selected while no server is
busy (the uniform draw u < 1 then always selects Arrival), the busy-server
count never becomes negative, and whenever a completion fires with an empty
queue the clamp max(0, busy - 1) returns exactly busy - 1, i.e. it never
actually clamps. -/
theorem C10_no_completion_when_idle (p : MMcQueue.Params)
    (hl : 0 ≤ p.lambda_rate) (hm : 0 ≤ p.mu_rate) (hc : 1 ≤ p.c)
    (s : MMcQueue.State) (dt u : ℚ) (hu1 : u < 1) (hb : 0 ≤ s.busy) :
    (s.busy = 0 → (MMcQueue.simulation_step p s dt u).served = s.served) ∧
    0 ≤ (MMcQueue.simulation_step p s dt u).busy ∧
    ((MMcQueue.simulation_step p s dt u).served = s.served + 1 → s.queue = 0 →
      (MMcQueue.simulation_step p s dt u).busy = s.busy - 1) := by
  simp only [MMcQueue.simulation_step]
  split_ifs with h5 h6 h7 h8
  · exact ⟨fun _ => rfl, hb, fun habs _ => by omega⟩
  · refine ⟨fun _ => rfl, by dsimp only; omega, fun habs _ => ?_⟩
    dsimp only at habs; omega
  · refine ⟨fun _ => rfl, by dsimp only; omega, fun habs _ => ?_⟩
    dsimp only at habs; omega
  · have h1b : 1 ≤ s.busy :=
      MMcQueue.busy_pos_of_completion p hl hm hc hb h5 hu1 (not_lt.mp h6)
    refine ⟨fun hb0 => by dsimp only; omega, by dsimp only; omega, fun _ hq0 => ?_⟩
    dsimp only; omega
  · have h1b : 1 ≤ s.busy :=
      MMcQueue.busy_pos_of_completion p hl hm hc hb h5 hu1 (not_lt.mp h6)
    refine ⟨fun hb0 => by dsimp only; omega, by dsimp only; omega, fun _ hq0 => ?_⟩
    dsimp only; omega

theorem C10_witness :
    (MMcQueue.initState.busy = 0 →
      (MMcQueue.simulation_step qpOne MMcQueue.initState 1 0).served
        = MMcQueue.initState.served) ∧
    0 ≤ (MMcQueue.simulation_step qpOne MMcQueue.initState 1 0).busy ∧
    ((MMcQueue.simulation_step qpOne MMcQueue.initState 1 0).served
        = MMcQueue.initState.served + 1 → MMcQueue.initState.queue = 0 →
      (MMcQueue.simulation_step qpOne MMcQueue.initState 1 0).busy
        = MMcQueue.initState.busy - 1) :=
  C10_no_completion_when_idle qpOne (by norm_num [qpOne]) (by norm_num [qpOne])
    (by norm_num [qpOne]) MMcQueue.initState 1 0 (by norm_num) (by decide)

namespace RepairSystem

/-- Total accumulated occupancy time over the full state space 0..N. -/
def occupancySum (p : Params) (s : State) : ℚ :=
  ∑ i ∈ Finset.Icc (0 : ℤ) (p.N : ℤ), s.time_in_state i

/-- Joint invariant: the failed-unit count stays in 0..N and the occupancy
array sums exactly to the current simulation time. -/
def OccInvariant (p : Params) (s : State) : Prop :=
  (0 ≤ s.state ∧ s.state ≤ (p.N : ℤ)) ∧ occupancySum p s = s.time

theorem occupancySum_update (p : Params) (s : State) (v : ℚ)
    (hmem : s.state ∈ Finset.Icc (0 : ℤ) (p.N : ℤ)) :
    ∑ i ∈ Finset.Icc (0 : ℤ) (p.N : ℤ),
        Function.update s.time_in_state s.state (s.time_in_state s.state + v) i
      = (∑ i ∈ Finset.Icc (0 : ℤ) (p.N : ℤ), s.time_in_state i) + v := by
  rw [Finset.sum_update_of_mem hmem,
    Finset.sum_eq_sum_diff_singleton_add hmem s.time_in_state]
  ring

theorem occInvariant_initState (p : Params) : OccInvariant p initState := by
  refine ⟨⟨le_refl 0, by positivity⟩, ?_⟩
  simp [occupancySum, initState]

theorem occInvariant_step (p : Params) (hN : 1 ≤ p.N) (hl : 0 ≤ p.lambda_rate)
    {s : State} (h : OccInvariant p s) {dt u : ℚ} (hu0 : 0 ≤ u) (hu1 : u < 1) :
    OccInvariant p (simulation_step p s dt u) := by
  obtain ⟨⟨hs0, hsN⟩, hsum⟩ := h
  have hmem : s.state ∈ Finset.Icc (0 : ℤ) (p.N : ℤ) := Finset.mem_Icc.mpr ⟨hs0, hsN⟩
  simp only [simulation_step]
  split_ifs with h1 h2 h3
  · exact ⟨⟨hs0, hsN⟩, hsum⟩
  · refine ⟨⟨hs0, hsN⟩, ?_⟩
    unfold occupancySum at *
    dsimp only at *
    rw [occupancySum_update p s _ hmem, hsum]
    ring
  · -- birth transition: state increments, so state < N must hold
    have hlt : s.state < (p.N : ℤ) := by
      by_contra hge
      have hstN : s.state = (p.N : ℤ) := by omega
      have hb0 : birth_rate p s.state = 0 := by
        unfold birth_rate
        rw [if_neg (by omega)]
      rw [hb0, zero_div] at h3
      linarith
    refine ⟨⟨by dsimp only; omega, by dsimp only; omega⟩, ?_⟩
    unfold occupancySum at *
    dsimp only at *
    rw [occupancySum_update p s _ hmem, hsum]
    ring
  · -- death transition: state decrements, so state > 0 must hold
    have hpos : 0 < s.state := by
      by_contra hle
      have hst0 : s.state = 0 := by omega
      have hd0 : death_rate p s.state = 0 := by
        unfold death_rate
        rw [if_neg (by omega)]
      have htb : total_rate p s.state = birth_rate p s.state := by
        unfold total_rate
        rw [hd0, add_zero]
      have hbnn : 0 ≤ birth_rate p s.state := by
        unfold birth_rate
        rw [hst0, if_pos (by exact_mod_cast Nat.lt_of_lt_of_le Nat.zero_lt_one hN)]
        have : (0 : ℚ) ≤ ((p.N : ℤ) : ℚ) := by positivity
        simpa using mul_nonneg this hl
      have htpos : 0 < total_rate p s.state := lt_of_le_of_ne (htb ▸ hbnn) (Ne.symm h1)
      have hone : birth_rate p s.state / total_rate p s.state = 1 := by
        rw [htb]
        exact div_self (ne_of_gt (htb ▸ htpos))
      rw [hone] at h3
      exact h3 hu1
    refine ⟨⟨by dsimp only; omega, by dsimp only; omega⟩, ?_⟩
    unfold occupancySum at *
    dsimp only at *
    rw [occupancySum_update p s _ hmem, hsum]
    ring

theorem occInvariant_run (p : Params) (hN : 1 ≤ p.N) (hl : 0 ≤ p.lambda_rate)
    {s : State} (h : OccInvariant p s) (ds : List (ℚ × ℚ))
    (hd : ∀ d ∈ ds, 0 ≤ d.2 ∧ d.2 < 1) : OccInvariant p (run p s ds) := by
  induction ds generalizing s with
  | nil => exact h
  | cons d ds ih =>
      exact ih
        (occInvariant_step p hN hl h (hd d (List.mem_cons_self d ds)).1
          (hd d (List.mem_cons_self d ds)).2)
        (fun e he => hd e (List.mem_cons_of_mem d he))

end RepairSystem

/-- C8: for the population variant, the sum of the occupancy array equals
current_time after every step (an invariant of all runs), so as soon as
current_time > 0 the state occupancy fractions time_in_state[i]/current_time
sum to exactly 1. -/
theorem C8_occupancy_fractions_sum_to_one (p : RepairSystem.Params) (hN : 1 ≤ p.N)
    (hl : 0 ≤ p.lambda_rate) :
    (∀ (s : RepairSystem.State) (dt u : ℚ), 0 ≤ u → u < 1 →
      RepairSystem.OccInvariant p s →
      RepairSystem.OccInvariant p (RepairSystem.simulation_step p s dt u)) ∧
    (∀ draws : List (ℚ × ℚ), (∀ d ∈ draws, 0 ≤ d.2 ∧ d.2 < 1) →
      RepairSystem.occupancySum p (RepairSystem.run p RepairSystem.initState draws)
        = (RepairSystem.run p RepairSystem.initState draws).time) ∧
    (∀ s : RepairSystem.State, RepairSystem.occupancySum p s = s.time → 0 < s.time →
      ∑ i ∈ Finset.Icc (0 : ℤ) (p.N : ℤ), s.time_in_state i / s.time = 1) := by
  refine ⟨fun s dt u hu0 hu1 h => RepairSystem.occInvariant_step p hN hl h hu0 hu1,
    fun draws hd =>
      (RepairSystem.occInvariant_run p hN hl (RepairSystem.occInvariant_initState p)
        draws hd).2,
    fun s hsum htime => ?_⟩
  rw [← Finset.sum_div]
  rw [RepairSystem.occupancySum] at hsum
  rw [hsum]
  exact div_self (ne_of_gt htime)

/-- A repair-system state with one accumulated unit of occupancy time in
state 0 at time 1, satisfying the occupancy invariant. -/
def rsOne : RepairSystem.State := ⟨1, 0, [], Function.update (fun _ => 0) 0 1, false⟩

theorem C8_witness :
    ∑ i ∈ Finset.Icc (0 : ℤ) ((rpZero.N : ℕ) : ℤ), rsOne.time_in_state i / rsOne.time = 1 :=
  (C8_occupancy_fractions_sum_to_one rpZero (by norm_num [rpZero]) (by norm_num [rpZero])).2.2
    rsOne
    (by norm_num [RepairSystem.occupancySum, rpZero, rsOne, Function.update,
      Finset.sum_ite_eq])
    (by norm_num [rsOne])

namespace RepairSystem

/-- The unnormalized steady-state vector of `theoretical_steady_state`:
pi[0] = 1 and pi[i] = pi[i-1] * ((N - i + 1) * lambda) / (min(i, teams) * mu)
for i = 1..N. -/
def pi_unnormalized (N : ℕ) (lambda_rate mu_rate : ℚ) (teams : ℤ) : ℕ → ℚ
  | 0 => 1
  | i + 1 =>
      pi_unnormalized N lambda_rate mu_rate teams i
        * (((N : ℚ) - ((i : ℚ) + 1) + 1) * lambda_rate)
        / (((min ((i : ℤ) + 1) teams : ℤ) : ℚ) * mu_rate)

/-- The normalization constant `np.sum(pi)`. -/
def pi_total (N : ℕ) (lambda_rate mu_rate : ℚ) (teams : ℤ) : ℚ :=
  ∑ i ∈ Finset.range (N + 1), pi_unnormalized N lambda_rate mu_rate teams i

/-- The normalized steady-state vector `pi = pi / np.sum(pi)`. -/
def pi_normalized (N : ℕ) (lambda_rate mu_rate : ℚ) (teams : ℤ) (i : ℕ) : ℚ :=
  pi_unnormalized N lambda_rate mu_rate teams i / pi_total N lambda_rate mu_rate teams

/-- `availability = sum((N - i) * pi[i] for i in range(N + 1)) / N`. -/
def availability (N : ℕ) (lambda_rate mu_rate : ℚ) (teams : ℤ) : ℚ :=
  (∑ i ∈ Finset.range (N + 1),
    ((N : ℚ) - (i : ℚ)) * pi_normalized N lambda_rate mu_rate teams i) / (N : ℚ)

theorem pi_unnormalized_pos (N : ℕ) (lambda_rate mu_rate : ℚ) (teams : ℤ)
    (hlam : 0 < lambda_rate) (hmu : 0 < mu_rate) (ht : 1 ≤ teams) :
    ∀ i : ℕ, i ≤ N → 0 < pi_unnormalized N lambda_rate mu_rate teams i := by
  intro i
  induction i with
  | zero => intro _; norm_num [pi_unnormalized]
  | succ i ih =>
      intro hiN
      have hpi : 0 < pi_unnormalized N lambda_rate mu_rate teams i :=
        ih (Nat.le_of_succ_le hiN)
      have hcoef : 0 < (N : ℚ) - ((i : ℚ) + 1) + 1 := by
        have : (i : ℚ) < (N : ℚ) := by exact_mod_cast Nat.lt_of_succ_le hiN
        linarith
      have hmin : 0 < ((min ((i : ℤ) + 1) teams : ℤ) : ℚ) := by
        have : (0 : ℤ) < min ((i : ℤ) + 1) teams := lt_min (by omega) (by omega)
        exact_mod_cast this
      rw [pi_unnormalized]
      exact div_pos (mul_pos hpi (mul_pos hcoef hlam)) (mul_pos hmin hmu)

theorem pi_total_pos (N : ℕ) (lambda_rate mu_rate : ℚ) (teams : ℤ)
    (hlam : 0 < lambda_rate) (hmu : 0 < mu_rate) (ht : 1 ≤ teams) :
    0 < pi_total N lambda_rate mu_rate teams :=
  Finset.sum_pos
    (fun i hi => pi_unnormalized_pos N lambda_rate mu_rate teams hlam hmu ht i
      (Nat.lt_succ_iff.mp (Finset.mem_range.mp hi)))
    ⟨0, Finset.mem_range.mpr (Nat.succ_pos N)⟩

end RepairSystem

/-- C6: `theoretical_steady_state` builds pi by the birth-death recursion
pi[0] = 1, pi[i] = pi[i-1]*((N-i+1)*lambda)/(min(i,teams)*mu), normalizes it,
and in exact arithmetic the normalized vector sums to exactly 1, with
availability = (sum over i of (N-i)*pi[i]) / N. -/
theorem C6_steady_state_normalization (N : ℕ) (lambda_rate mu_rate : ℚ) (teams : ℤ)
    (hN : 1 ≤ N) (hlam : 0 < lambda_rate) (hmu : 0 < mu_rate) (ht : 1 ≤ teams) :
    RepairSystem.pi_unnormalized N lambda_rate mu_rate teams 0 = 1 ∧
    (∀ i : ℕ, RepairSystem.pi_unnormalized N lambda_rate mu_rate teams (i + 1)
        = RepairSystem.pi_unnormalized N lambda_rate mu_rate teams i
            * (((N : ℚ) - ((i : ℚ) + 1) + 1) * lambda_rate)
            / (((min ((i : ℤ) + 1) teams : ℤ) : ℚ) * mu_rate)) ∧
    (∑ i ∈ Finset.range (N + 1),
        RepairSystem.pi_normalized N lambda_rate mu_rate teams i = 1) ∧
    RepairSystem.availability N lambda_rate mu_rate teams
      = (∑ i ∈ Finset.range (N + 1),
          ((N : ℚ) - (i : ℚ)) * RepairSystem.pi_normalized N lambda_rate mu_rate teams i)
          / (N : ℚ) := by
  refine ⟨rfl, fun i => rfl, ?_, rfl⟩
  unfold RepairSystem.pi_normalized
  rw [← Finset.sum_div]
  exact div_self
    (ne_of_gt (RepairSystem.pi_total_pos N lambda_rate mu_rate teams hlam hmu ht))

theorem C6_witness :
    ∑ i ∈ Finset.range (3 + 1), RepairSystem.pi_normalized 3 (1/5) (1/2) 1 i = 1 :=
  (C6_steady_state_normalization 3 (1/5) (1/2) 1 (by norm_num) (by norm_num)
    (by norm_num) (by norm_num)).2.2.1

namespace MMcQueue

/-- The theoretical section rendered by queue.py: either the M/M/1 metrics
(W, Wq, rho, Lq), the M/M/c metrics, or no theoretical output at all.  The
source has an `if c == 1 and lambda < mu` branch, an
`elif c > 1 and lambda/(c*mu) < 1` branch, and no else branch. -/
inductive TheoreticalResult where
  | mm1 (W Wq rho Lq : ℚ)
  | mmc (W Wq rho Lq : ℚ)
  | noOutput
deriving DecidableEq

/-- True exactly when the M/M/1 section was rendered. -/
def TheoreticalResult.isMM1 : TheoreticalResult → Bool
  | .mm1 _ _ _ _ => true
  | _ => false

/-- True exactly when the M/M/c section was rendered. -/
def TheoreticalResult.isMMc : TheoreticalResult → Bool
  | .mmc _ _ _ _ => true
  | _ => false

/-- The theoretical block of queue.py (lines 174-200): the two guarded
branches computing the M/M/1 and Erlang-C closed forms, with no else. -/
def theoretical_results (lambda_rate mu_rate : ℚ) (c : ℕ) : TheoreticalResult :=
  if c = 1 ∧ lambda_rate < mu_rate then
    let rho := lambda_rate / mu_rate
    TheoreticalResult.mm1 (1 / (mu_rate - lambda_rate))
      (lambda_rate / (mu_rate * (mu_rate - lambda_rate))) rho (rho ^ 2 / (1 - rho))
  else if 1 < c ∧ lambda_rate / ((c : ℚ) * mu_rate) < 1 then
    let rho := lambda_rate / ((c : ℚ) * mu_rate)
    let sum_term := ∑ k ∈ Finset.range c, ((c : ℚ) * rho) ^ k / (Nat.factorial k : ℚ)
    let p0 := 1 / (sum_term + ((c : ℚ) * rho) ^ c / ((Nat.factorial c : ℚ) * (1 - rho)))
    let Lq := (((c : ℚ) * rho) ^ c * rho) / ((Nat.factorial c : ℚ) * (1 - rho) ^ 2) * p0
    TheoreticalResult.mmc (Lq / lambda_rate + 1 / mu_rate) (Lq / lambda_rate) rho Lq
  else TheoreticalResult.noOutput

end MMcQueue

/-- C7 counterexample: at lambda = 2, mu = 1, c = 1 the stability
precondition fails and queue.py renders no theoretical output whatsoever:
there is no labeled "undefined/unstable" report, contradicting the claim
that a failing precondition is reported explicitly rather than silently
omitted. -/
theorem C7_counterexample :
    ¬((1 : ℕ) = 1 ∧ (2 : ℚ) < 1) ∧
    ¬(1 < (1 : ℕ) ∧ (2 : ℚ) / (((1 : ℕ) : ℚ) * 1) < 1) ∧
    MMcQueue.theoretical_results 2 1 1 = MMcQueue.TheoreticalResult.noOutput := by
  refine ⟨by norm_num, by norm_num, ?_⟩
  unfold MMcQueue.theoretical_results
  rw [if_neg (by norm_num), if_neg (by norm_num)]

/-- C7 amended: the theoretical closed forms are computed only when the
stability precondition holds (the M/M/1 section only if c = 1 and
lambda < mu, the M/M/c section only if c > 1 and lambda/(c mu) < 1), and
whenever the precondition fails the code produces no theoretical output at
all — a silent omission, not a labeled "undefined/unstable" report. -/
theorem C7_theoretical_branch_guards (lambda_rate mu_rate : ℚ) (c : ℕ) :
    ((MMcQueue.theoretical_results lambda_rate mu_rate c).isMM1 = true →
      c = 1 ∧ lambda_rate < mu_rate) ∧
    ((MMcQueue.theoretical_results lambda_rate mu_rate c).isMMc = true →
      1 < c ∧ lambda_rate / ((c : ℚ) * mu_rate) < 1) ∧
    (¬(c = 1 ∧ lambda_rate < mu_rate) →
      ¬(1 < c ∧ lambda_rate / ((c : ℚ) * mu_rate) < 1) →
      MMcQueue.theoretical_results lambda_rate mu_rate c
        = MMcQueue.TheoreticalResult.noOutput) := by
  unfold MMcQueue.theoretical_results
  split_ifs with h1 h2
  · refine ⟨fun _ => h1, ?_, fun hn _ => absurd h1 hn⟩
    intro h
    simp [MMcQueue.TheoreticalResult.isMMc] at h
  · refine ⟨?_, fun _ => h2, fun _ hn => absurd h2 hn⟩
    intro h
    simp [MMcQueue.TheoreticalResult.isMM1] at h
  · refine ⟨?_, ?_, fun _ _ => rfl⟩
    · intro h
      simp [MMcQueue.TheoreticalResult.isMM1] at h
    · intro h
      simp [MMcQueue.TheoreticalResult.isMMc] at h

theorem C7_witness :
    MMcQueue.theoretical_results 2 1 1 = MMcQueue.TheoreticalResult.noOutput :=
  (C7_theoretical_branch_guards 2 1 1).2.2 (by norm_num) (by norm_num)

/-- Repair parameters with positive failure rate. -/
def rpPos : RepairSystem.Params := ⟨3, 1/5, 1/2, 1, 100⟩

/-- C1 counterexample: a truncated queue step (time 0 < horizon 100 <
0 + dt with dt = 200) still applies a state transition: the arrival counter
changes, contradicting the claim that no transition occurs and all event
counts stay unchanged. -/
theorem C1_counterexample :
    MMcQueue.initState.time < qpOne.T_MAX ∧
    qpOne.T_MAX < MMcQueue.initState.time + 200 ∧
    (MMcQueue.simulation_step qpOne MMcQueue.initState 200 0).time = qpOne.T_MAX ∧
    (MMcQueue.simulation_step qpOne MMcQueue.initState 200 0).arrivals
      ≠ MMcQueue.initState.arrivals := by
  refine ⟨by norm_num [MMcQueue.initState, qpOne], by norm_num [MMcQueue.initState, qpOne],
    ?_, ?_⟩ <;>
    norm_num [MMcQueue.simulation_step, MMcQueue.total_rate, MMcQueue.arrival_rate,
      MMcQueue.service_rate, qpOne, MMcQueue.initState, min_def]

/-- C1 amended: on a truncating step (total rate positive, current_time <
horizon < current_time + dt) both variants set current_time to exactly the
horizon and add (horizon - old time) times the value of interest of the
current state to the time-weighted accumulators; the queue variant appends
the pre-transition sample (horizon, queue) to its history lists but then
STILL applies a state transition (incrementing exactly one event counter),
while the repair variant applies no transition, appends nothing to history,
and clears the running flag. -/
theorem C1_horizon_truncation :
    (∀ (p : MMcQueue.Params) (s : MMcQueue.State) (dt u : ℚ),
      0 < MMcQueue.total_rate p s → s.time < p.T_MAX → p.T_MAX < s.time + dt →
      (MMcQueue.simulation_step p s dt u).time = p.T_MAX ∧
      (MMcQueue.simulation_step p s dt u).queue_time
        = s.queue_time + (s.queue : ℚ) * (p.T_MAX - s.time) ∧
      (MMcQueue.simulation_step p s dt u).busy_time
        = s.busy_time + (s.busy : ℚ) * (p.T_MAX - s.time) ∧
      (MMcQueue.simulation_step p s dt u).queue_history
        = s.queue_history ++ [s.queue] ∧
      (MMcQueue.simulation_step p s dt u).time_history
        = s.time_history ++ [p.T_MAX] ∧
      (MMcQueue.simulation_step p s dt u).arrivals
          + (MMcQueue.simulation_step p s dt u).served
        = s.arrivals + s.served + 1) ∧
    (∀ (p : RepairSystem.Params) (s : RepairSystem.State) (dt u : ℚ),
      0 < RepairSystem.total_rate p s.state → s.time < p.T_MAX → p.T_MAX < s.time + dt →
      (RepairSystem.simulation_step p s dt u).time = p.T_MAX ∧
      (RepairSystem.simulation_step p s dt u).state = s.state ∧
      (RepairSystem.simulation_step p s dt u).history = s.history ∧
      (RepairSystem.simulation_step p s dt u).running = false ∧
      (RepairSystem.simulation_step p s dt u).time_in_state s.state
        = s.time_in_state s.state + (p.T_MAX - s.time)) := by
  constructor
  · intro p s dt u h1 h2 h3
    have hmin : min (s.time + dt) p.T_MAX = p.T_MAX := min_eq_right (le_of_lt h3)
    simp only [MMcQueue.simulation_step]
    rw [if_neg (ne_of_gt h1)]
    split_ifs <;> refine ⟨?_, ?_, ?_, ?_, ?_, ?_⟩ <;> dsimp only <;>
      first
      | rfl
      | rw [hmin]
      | omega
  · intro p s dt u h1 h2 h3
    have hmin : min (s.time + dt) p.T_MAX = p.T_MAX := min_eq_right (le_of_lt h3)
    simp only [RepairSystem.simulation_step]
    rw [if_neg (ne_of_gt h1), hmin, if_pos (le_refl p.T_MAX)]
    refine ⟨rfl, rfl, rfl, rfl, ?_⟩
    simp [Function.update]

theorem C1_witness :
    ((MMcQueue.simulation_step qpOne MMcQueue.initState 200 (1/2)).arrivals
        + (MMcQueue.simulation_step qpOne MMcQueue.initState 200 (1/2)).served
      = MMcQueue.initState.arrivals + MMcQueue.initState.served + 1) ∧
    (RepairSystem.simulation_step rpPos RepairSystem.initState 200 (1/2)).running = false :=
  ⟨(C1_horizon_truncation.1 qpOne MMcQueue.initState 200 (1/2)
      (by norm_num [MMcQueue.total_rate, MMcQueue.arrival_rate, MMcQueue.service_rate,
        qpOne, MMcQueue.initState])
      (by norm_num [MMcQueue.initState, qpOne])
      (by norm_num [MMcQueue.initState, qpOne])).2.2.2.2.2,
   (C1_horizon_truncation.2 rpPos RepairSystem.initState 200 (1/2)
      (by norm_num [RepairSystem.total_rate, RepairSystem.birth_rate,
        RepairSystem.death_rate, rpPos, RepairSystem.initState])
      (by norm_num [RepairSystem.initState, rpPos])
      (by norm_num [RepairSystem.initState, rpPos])).2.2.2.1⟩

/-- A queue state with the single server busy and an empty queue, so that
the next arrival must join the queue. -/
def qsBusy : MMcQueue.State := ⟨0, 0, 1, 1, 0, 0, 0, [], []⟩

/-- C2 counterexample: in a non-truncated, non-absorbing queue step the
arrival joins the queue (new queue length 1), yet the sample appended to the
history is the PRE-transition queue length 0, contradicting the claim that
the appended sample is the post-transition state. -/
theorem C2_counterexample :
    0 < MMcQueue.total_rate qpOne qsBusy ∧
    qsBusy.time + 1 < qpOne.T_MAX ∧
    (MMcQueue.simulation_step qpOne qsBusy 1 0).queue = 1 ∧
    (MMcQueue.simulation_step qpOne qsBusy 1 0).queue_history = [0] := by
  refine ⟨?_, by norm_num [qsBusy, qpOne], ?_, ?_⟩ <;>
    norm_num [MMcQueue.simulation_step, MMcQueue.total_rate, MMcQueue.arrival_rate,
      MMcQueue.service_rate, qpOne, qsBusy, min_def]

/-- C2 amended: in every non-truncated, non-absorbing step, the repair
variant appends (next_time, post-transition state) to its history and sets
current_time = next_time; the queue variant also sets current_time =
next_time and increments exactly the matching event counter, but the sample
it appends to its parallel history lists is (next_time, PRE-transition
queue length). -/
theorem C2_history_samples :
    (∀ (p : MMcQueue.Params) (s : MMcQueue.State) (dt u : ℚ),
      0 < MMcQueue.total_rate p s → s.time + dt < p.T_MAX →
      (MMcQueue.simulation_step p s dt u).time = s.time + dt ∧
      (MMcQueue.simulation_step p s dt u).queue_history
        = s.queue_history ++ [s.queue] ∧
      (MMcQueue.simulation_step p s dt u).time_history
        = s.time_history ++ [s.time + dt] ∧
      (u < MMcQueue.arrival_rate p / MMcQueue.total_rate p s →
        (MMcQueue.simulation_step p s dt u).arrivals = s.arrivals + 1 ∧
        (MMcQueue.simulation_step p s dt u).served = s.served) ∧
      (¬(u < MMcQueue.arrival_rate p / MMcQueue.total_rate p s) →
        (MMcQueue.simulation_step p s dt u).served = s.served + 1 ∧
        (MMcQueue.simulation_step p s dt u).arrivals = s.arrivals)) ∧
    (∀ (p : RepairSystem.Params) (s : RepairSystem.State) (dt u : ℚ),
      0 < RepairSystem.total_rate p s.state → s.time + dt < p.T_MAX →
      (RepairSystem.simulation_step p s dt u).time = s.time + dt ∧
      (RepairSystem.simulation_step p s dt u).state
        = (if u < RepairSystem.birth_rate p s.state / RepairSystem.total_rate p s.state
            then s.state + 1 else s.state - 1) ∧
      (RepairSystem.simulation_step p s dt u).history
        = s.history ++ [((RepairSystem.simulation_step p s dt u).time,
            (RepairSystem.simulation_step p s dt u).state)]) := by
  constructor
  · intro p s dt u h1 h2
    have hmin : min (s.time + dt) p.T_MAX = s.time + dt := min_eq_left (le_of_lt h2)
    simp only [MMcQueue.simulation_step]
    rw [if_neg (ne_of_gt h1)]
    split_ifs with h6 h7 h8 <;>
      refine ⟨?_, ?_, ?_, ?_, ?_⟩ <;> dsimp only <;>
      first
      | rfl
      | rw [hmin]
      | (exact fun hn => absurd h6 hn)
      | (exact fun hy => absurd hy h6)
      | (exact fun _ => ⟨rfl, rfl⟩)
  · intro p s dt u h1 h2
    have hmin : min (s.time + dt) p.T_MAX = s.time + dt := min_eq_left (le_of_lt h2)
    simp only [RepairSystem.simulation_step]
    rw [if_neg (ne_of_gt h1), hmin, if_neg (not_le.mpr h2)]
    split_ifs <;> exact ⟨rfl, rfl, rfl⟩

theorem C2_witness :
    ((MMcQueue.simulation_step qpOne qsBusy 1 0).queue_history
      = qsBusy.queue_history ++ [qsBusy.queue]) ∧
    ((RepairSystem.simulation_step rpPos RepairSystem.initState 1 0).history
      = RepairSystem.initState.history
          ++ [((RepairSystem.simulation_step rpPos RepairSystem.initState 1 0).time,
               (RepairSystem.simulation_step rpPos RepairSystem.initState 1 0).state)]) :=
  ⟨(C2_history_samples.1 qpOne qsBusy 1 0
      (by norm_num [MMcQueue.total_rate, MMcQueue.arrival_rate, MMcQueue.service_rate,
        qpOne, qsBusy])
      (by norm_num [qsBusy, qpOne])).2.1,
   (C2_history_samples.2 rpPos RepairSystem.initState 1 0
      (by norm_num [RepairSystem.total_rate, RepairSystem.birth_rate,
        RepairSystem.death_rate, rpPos, RepairSystem.initState])
      (by norm_num [RepairSystem.initState, rpPos])).2.2⟩
